import Mathlib

/-!
Verification of the Token Vault specification of the
`auth-manager-fullstask` repository against its sources.

The repository ships the auth-manager README (architecture and sequence
diagrams), build glue, and the Next.js frontend sources; the backend
implementation itself (Cipher, State Token Codec, Vault Store, Token
Lifecycle Manager) is documented but its Python sources are not part of
the checked-in tree.  Components that are absent are therefore modelled-
from-the-spec (each such definition says so in its doc comment); the
consent-feedback page is translated directly from
`src/frontend/src/app/consent-feedback/page.tsx`.

Conventions: byte strings are `List Nat` with each entry below 256;
machine arithmetic is explicit `% 256`; fallible operations return
`Option` or `Except`.
-/

namespace AuthManager

/-! ## Cipher: authenticated sealing of token strings

Modelled from the spec, section 4.1: the real implementation
(AES-256-CBC under a process-wide key, with mandatory integrity
validation: "the design must detect tampering rather than silently
returning garbage") is not under `src/`.  The block cipher is replaced
by a keyed stream; the per-byte tag and the length tag model the
integrity validation that the spec makes mandatory for the stored blob
(ciphertext plus initialization vector, as in the data model of
section 3). -/

/-- Keystream byte `i` used to encrypt the plaintext under key and iv. -/
def keystream (key iv i : Nat) : Nat := (key + iv + i) % 256

/-- Keystream byte `i` used for the integrity tag under key and iv. -/
def tagstream (key iv i : Nat) : Nat := (key + iv + i + 1) % 256

/-- XOR a list of bytes with the stream `f`, starting at index `i`. -/
def xorWith (f : Nat → Nat) : Nat → List Nat → List Nat
  | _, [] => []
  | i, b :: bs => (b ^^^ f i) :: xorWith f (i + 1) bs

/-- Length tag binding the iv and the plaintext length to the key. -/
def lengthTag (key iv n : Nat) : Nat := (key + iv + n + 7) % 256

/-- Modelled from the spec, section 4.1 and the StoredToken data model of
section 3: the stored blob produced by encryption — the iv byte, the
length tag, the encrypted body, and the per-byte integrity tags. -/
def encryptBlob (key iv : Nat) (pt : List Nat) : List Nat :=
  let ivb := iv % 256
  let body := xorWith (keystream key ivb) 0 pt
  ivb :: lengthTag key ivb pt.length :: (body ++ xorWith (tagstream key ivb) 0 body)

/-- Integrity check of the tag half of the parsed blob against the body
half: byte `n + i` must be body byte `i` XOR the tag stream. -/
def tagsOk (key ivb n : Nat) (rest : List Nat) : Prop :=
  ∀ i < n, rest.getD (n + i) 0 = rest.getD i 0 ^^^ tagstream key ivb i

instance (key ivb n : Nat) (rest : List Nat) : Decidable (tagsOk key ivb n rest) :=
  Nat.decidableBallLT n _

/-- Modelled from the spec, section 4.1: decryption of a stored blob.
Validates the structure, the iv byte, the length tag, and every
integrity tag; any mismatch is a `DecryptionError` (`none`), never
partial plaintext. -/
def decryptBlob (key : Nat) (blob : List Nat) : Option (List Nat) :=
  match blob with
  | ivb :: lt :: rest =>
    let n := rest.length / 2
    if rest.length % 2 = 0 ∧ ivb < 256 ∧ lt = lengthTag key ivb n ∧ tagsOk key ivb n rest
    then some (xorWith (keystream key ivb) 0 (rest.take n))
    else none
  | _ => none

/-- Body-plus-tags part of an encrypted blob (everything after the iv
byte and the length tag). -/
def restOf (key iv : Nat) (pt : List Nat) : List Nat :=
  xorWith (keystream key (iv % 256)) 0 pt ++
    xorWith (tagstream key (iv % 256)) 0 (xorWith (keystream key (iv % 256)) 0 pt)

/-! ## Cipher contract wrappers

Modelled from the spec, section 4.1: `encrypt(plaintext) -> (ciphertext, iv)`
and `decrypt(ciphertext, iv) -> plaintext`.  The caller-visible iv is the
iv byte of the stored blob; the stored blob (data model, section 3) is the
ciphertext together with its iv. -/

/-- Modelled from the spec: `encrypt` returns the ciphertext (length tag,
body and integrity tags) and the iv used. -/
def encrypt (key iv : Nat) (pt : List Nat) : List Nat × Nat :=
  ((encryptBlob key iv pt).drop 1, iv % 256)

/-- Modelled from the spec: `decrypt` of a ciphertext and its iv; `none`
is the `DecryptionError` failure. -/
def decrypt (key : Nat) (ct : List Nat) (iv : Nat) : Option (List Nat) :=
  decryptBlob key (iv :: ct)

/-! ## State Token Codec

Modelled from the spec, section 4.2: the codec sources are not under
`src/`.  `issue(ConsentState, ttl)` produces a compact token; `verify`
fails with `ExpiredStateToken` when `now > issuedAt + ttl` and with
`InvalidStateToken` when the integrity check fails or the structure is
malformed.  The codec is stateless and keyed by a secret separate from
the Cipher key. -/

/-- ConsentState as in the data model, section 3: ephemeral, carried only
inside the State Token.  Identifiers are modelled as naturals. -/
structure ConsentState where
  userId : Nat
  sessionStateId : Nat
  nonce : Nat
  issuedAt : Nat
  redirectContext : Nat
deriving DecidableEq, Repr

/-- Errors of the State Token Codec, section 4.2. -/
inductive StateTokenError where
  | invalidStateToken
  | expiredStateToken
deriving DecidableEq, Repr

/-- Payload carried by a State Token: the ConsentState fields and the
ttl, one field per entry. -/
def statePayload (cs : ConsentState) (ttl : Nat) : List Nat :=
  [cs.userId, cs.sessionStateId, cs.nonce, cs.issuedAt, cs.redirectContext, ttl]

/-- Modelled from the spec, section 4.2: `issue` seals the payload
under the codec secret, using the consent nonce as the envelope iv. -/
def issueStateToken (secret : Nat) (cs : ConsentState) (ttl : Nat) : List Nat :=
  encryptBlob secret cs.nonce (statePayload cs ttl)

/-- Modelled from the spec, section 4.2: `verify` checks the envelope
first (an integrity failure or a malformed payload is
`InvalidStateToken`), decodes the payload, and then rejects with
`ExpiredStateToken` when `now > issuedAt + ttl`. -/
def verifyStateToken (secret : Nat) (token : List Nat) (now : Nat) :
    Except StateTokenError ConsentState :=
  match decryptBlob secret token with
  | none => .error .invalidStateToken
  | some payload =>
    match payload with
    | [u, sid, non, ia, rc, ttl] =>
      if now ≤ ia + ttl then .ok ⟨u, sid, non, ia, rc⟩
      else .error .expiredStateToken
    | _ => .error .invalidStateToken

/-! ## Vault Store

Modelled from the spec, sections 3 and 4.3: the Python Vault Store is
not under `src/`; the model follows the data model (StoredToken and
TokenAlias records) and the store contract word for word.  Upstream
identity-provider revocation is modelled as a ledger of revoked stored
token ids, so that "revocation invoked exactly once" is observable. -/

/-- Kind of a StoredToken: `refresh` or `offline` (data model, section 3). -/
inductive TokenKind where
  | refresh
  | offline
deriving DecidableEq, Repr

/-- Status of a StoredToken: `active` or `revoked` (data model, section 3). -/
inductive TokenStatus where
  | active
  | revoked
deriving DecidableEq, Repr

/-- StoredToken record (data model, section 3); the ciphertext column
holds the encrypted value together with its iv, i.e. a blob. -/
structure StoredToken where
  id : Nat
  kind : TokenKind
  ciphertext : List Nat
  sessionStateId : Nat
  userId : Nat
  status : TokenStatus
deriving DecidableEq, Repr

/-- TokenAlias record (data model, section 3): a persistent id pointing
at a shared StoredToken. -/
structure TokenAlias where
  aliasId : Nat
  storedTokenId : Nat
deriving DecidableEq, Repr

/-- Whole state of the Vault Store, plus the ledger of upstream
identity-provider revocations performed so far (most recent first). -/
structure VaultState where
  tokens : List StoredToken
  aliases : List TokenAlias
  nextId : Nat
  upstreamRevoked : List Nat
deriving DecidableEq, Repr

/-- Empty store. -/
def VaultState.initial : VaultState := ⟨[], [], 0, []⟩

/-- Lookup of a StoredToken by id. -/
def findToken (s : VaultState) (tid : Nat) : Option StoredToken :=
  s.tokens.find? (fun t => t.id == tid)

/-- Lookup of a TokenAlias by alias id. -/
def findAlias (s : VaultState) (aid : Nat) : Option TokenAlias :=
  s.aliases.find? (fun a => a.aliasId == aid)

/-- All aliases pointing at a given stored token. -/
def aliasesOf (s : VaultState) (tid : Nat) : List TokenAlias :=
  s.aliases.filter (fun a => a.storedTokenId == tid)

/-- Modelled from the spec, section 4.3: `put` encrypts and persists a
new record (status `active`), returning the new store and the id. -/
def put (key : Nat) (kind : TokenKind) (sid uid : Nat) (pt : List Nat)
    (s : VaultState) : VaultState × Nat :=
  ({ tokens := { id := s.nextId, kind := kind,
                 ciphertext := encryptBlob key s.nextId pt,
                 sessionStateId := sid, userId := uid,
                 status := .active } :: s.tokens,
     aliases := s.aliases, nextId := s.nextId + 1,
     upstreamRevoked := s.upstreamRevoked }, s.nextId)

/-- Modelled from the spec, section 4.3: `createAlias` mints, for an
offline token, a new persistent id sharing the same secret. -/
def createAlias (s : VaultState) (tid : Nat) : VaultState × Option Nat :=
  match findToken s tid with
  | some t =>
    if t.kind = TokenKind.offline then
      ({ s with aliases := ⟨s.nextId, tid⟩ :: s.aliases, nextId := s.nextId + 1 },
       some s.nextId)
    else (s, none)
  | none => (s, none)

/-- Modelled from the spec, section 4.3: `removeAlias` deletes one alias
and returns the count of aliases still pointing at the same StoredToken
(`none` is the stale-id `NotFound`). -/
def removeAlias (s : VaultState) (aid : Nat) : VaultState × Option Nat :=
  match findAlias s aid with
  | some a =>
    let s1 := { s with aliases := s.aliases.filter (fun b => b.aliasId != aid) }
    (s1, some (aliasesOf s1 a.storedTokenId).length)
  | none => (s, none)

/-- Modelled from the spec, section 4.3: `markRevoked` sets the status
of a record to `revoked`. -/
def markRevoked (s : VaultState) (tid : Nat) : VaultState :=
  { s with
    tokens := s.tokens.map
      (fun t => if t.id = tid then { t with status := .revoked } else t) }

/-- Modelled from the spec, sections 4.4 and 6: the identity-provider
revocation endpoint, recorded on a ledger. -/
def revokeUpstream (s : VaultState) (tid : Nat) : VaultState :=
  { s with upstreamRevoked := tid :: s.upstreamRevoked }

/-- Modelled from the spec, section 4.3: `rotate` replaces the
ciphertext in place under a fresh iv; `none` is `NotFound`. -/
def rotate (key : Nat) (s : VaultState) (tid : Nat) (newPt : List Nat) :
    VaultState × Option Unit :=
  match findToken s tid with
  | some _ =>
    ({ s with
       tokens := s.tokens.map
         (fun t => if t.id = tid then
            { t with ciphertext := encryptBlob key s.nextId newPt } else t),
       nextId := s.nextId + 1 }, some ())
  | none => (s, none)

/-- Modelled from the spec, section 4.4: `revoke(persistentTokenId)`.
For an alias of an offline token it removes the alias; only when no
alias remains does it revoke upstream and mark the record revoked,
returning `{revoked: true}`; otherwise `{revoked: false}`.  For a
refresh-kind id it revokes upstream immediately. -/
def revoke (s : VaultState) (pid : Nat) : VaultState × Option Bool :=
  match findAlias s pid with
  | some a =>
    match removeAlias s pid with
    | (s1, some 0) =>
      (markRevoked (revokeUpstream s1 a.storedTokenId) a.storedTokenId, some true)
    | (s1, some (_ + 1)) => (s1, some false)
    | (s1, none) => (s1, none)
  | none =>
    match findToken s pid with
    | some t =>
      if t.kind = TokenKind.refresh then
        (markRevoked (revokeUpstream s pid) pid, some true)
      else (s, none)
    | none => (s, none)

/-- Sequentially revoke a list of persistent ids, collecting the
`{revoked}` answers in order. -/
def revokeSeq (s : VaultState) : List Nat → VaultState × List (Option Bool)
  | [] => (s, [])
  | p :: ps =>
    let step := revoke s p
    let tail := revokeSeq step.1 ps
    (tail.1, step.2 :: tail.2)

/-! ## Token Lifecycle Manager

Modelled from the spec, section 4.4 and the README sequence diagrams
(Use Cases 2, 3 and 5): the Python Lifecycle Manager is not under
`src/`.  The identity provider is an external collaborator; its answers
(code exchange, refresh grant) enter as explicit arguments. -/

/-- Answer of the identity provider to a refresh grant: either a
rejection (token expired or revoked upstream) or a new access token,
its lifetime, and optionally a rotated refresh/offline secret. -/
inductive ProviderResult where
  | rejected
  | granted (accessToken : List Nat) (expiresIn : Nat) (rotated : Option (List Nat))
deriving DecidableEq, Repr

/-- Errors surfaced by `mintAccessToken` (spec, section 7). -/
inductive MintError where
  | notFound
  | decryptionError
  | upstreamTokenRejected
deriving DecidableEq, Repr

/-- Successful answer of `mintAccessToken`. -/
structure MintOk where
  accessToken : List Nat
  expiresIn : Nat
deriving DecidableEq, Repr

/-- Resolve a persistent token id: an alias (offline sharing) if one
exists, otherwise a direct StoredToken id. -/
def resolveStoredId (s : VaultState) (pid : Nat) : Option Nat :=
  match findAlias s pid with
  | some a => some a.storedTokenId
  | none =>
    match findToken s pid with
    | some t => some t.id
    | none => none

/-- Modelled from the spec, section 4.4: `mintAccessToken` resolves the
persistent id, decrypts the stored secret, and performs the refresh
grant.  On upstream rejection it marks the record revoked locally and
fails `UpstreamTokenRejected`; on success it rotates the stored
ciphertext when the provider returned a rotated secret, and returns
`{accessToken, expiresIn}`. -/
def mintAccessToken (key : Nat) (s : VaultState) (pid : Nat)
    (resp : ProviderResult) : VaultState × Except MintError MintOk :=
  match resolveStoredId s pid with
  | none => (s, .error .notFound)
  | some tid =>
    match findToken s tid with
    | none => (s, .error .notFound)
    | some t =>
      match decryptBlob key t.ciphertext with
      | none => (s, .error .decryptionError)
      | some _ =>
        match resp with
        | .rejected => (markRevoked s tid, .error .upstreamTokenRejected)
        | .granted at_ exp rot =>
          match rot with
          | some newPt => ((rotate key s tid newPt).1, .ok ⟨at_, exp⟩)
          | none => (s, .ok ⟨at_, exp⟩)

/-- Modelled from the spec, sections 4.4 and 6: query parameters of the
redirect to the consent-feedback page — `error` and `description` on
failure, none of the two on success (the README success redirect carries
`status=success`). -/
def feedbackParams : Except (String × String) Unit → List (String × String)
  | .error (code, msg) => [("error", code), ("description", msg)]
  | .ok _ => [("status", "success")]

/-- Modelled from the spec, section 4.4: `handleConsentCallback` checks
the State Token first (expired or invalid tokens redirect to the
feedback page with an error code and create nothing), then exchanges the
code with the identity provider, and only then stores the new offline
StoredToken and mints its first alias. -/
def handleConsentCallback (key secret : Nat) (s : VaultState) (code : Nat)
    (token : List Nat) (now : Nat) (exchange : Nat → Option (List Nat)) :
    VaultState × List (String × String) :=
  match verifyStateToken secret token now with
  | .error .expiredStateToken =>
    (s, feedbackParams (.error ("expired_state", "state token expired")))
  | .error .invalidStateToken =>
    (s, feedbackParams (.error ("invalid_state", "state token invalid")))
  | .ok cs =>
    match exchange code with
    | none =>
      (s, feedbackParams (.error ("upstream_exchange_error", "code exchange failed")))
    | some offTok =>
      let p := put key .offline cs.sessionStateId cs.userId offTok s
      ((createAlias p.1 p.2).1, feedbackParams (.ok ()))

/-- Modelled from the spec, section 4.4: `getRefreshTokenId` resolves
the session and returns the id of the stored refresh token itself (a
refresh token is its own sole reference); read-only. -/
def getRefreshTokenId (s : VaultState) (sid : Nat) : Option Nat :=
  (s.tokens.find? (fun t => t.sessionStateId == sid
    && t.kind == TokenKind.refresh && t.status == TokenStatus.active)).map (·.id)

/-- Modelled from the spec, section 4.4: `getOfflineTokenId` resolves
the session and mints a fresh alias of the stored offline token, so each
caller gets its own revocable id pointing at the shared secret. -/
def getOfflineTokenId (s : VaultState) (sid : Nat) : VaultState × Option Nat :=
  match s.tokens.find? (fun t => t.sessionStateId == sid
    && t.kind == TokenKind.offline && t.status == TokenStatus.active) with
  | some t => createAlias s t.id
  | none => (s, none)

/-- Well-formedness invariant of the Vault Store: distinct token ids,
distinct alias ids, ids bounded by the id counter, and every alias
pointing at an existing offline StoredToken. -/
def WF (s : VaultState) : Prop :=
  (s.tokens.map StoredToken.id).Nodup
  ∧ (s.aliases.map TokenAlias.aliasId).Nodup
  ∧ (∀ t ∈ s.tokens, t.id < s.nextId)
  ∧ (∀ a ∈ s.aliases, a.aliasId < s.nextId)
  ∧ (∀ a ∈ s.aliases, ∃ t ∈ s.tokens, t.id = a.storedTokenId ∧ t.kind = TokenKind.offline)

/-- States of the Vault Store reachable from the empty store through the
store and lifecycle operations. -/
inductive Reachable (key secret : Nat) : VaultState → Prop where
  | init : Reachable key secret VaultState.initial
  | put (s : VaultState) (kind : TokenKind) (sid uid : Nat) (pt : List Nat) :
      Reachable key secret s → Reachable key secret (put key kind sid uid pt s).1
  | createAlias (s : VaultState) (tid : Nat) :
      Reachable key secret s → Reachable key secret (createAlias s tid).1
  | removeAlias (s : VaultState) (aid : Nat) :
      Reachable key secret s → Reachable key secret (removeAlias s aid).1
  | markRevoked (s : VaultState) (tid : Nat) :
      Reachable key secret s → Reachable key secret (markRevoked s tid)
  | rotate (s : VaultState) (tid : Nat) (pt : List Nat) :
      Reachable key secret s → Reachable key secret (rotate key s tid pt).1
  | revoke (s : VaultState) (pid : Nat) :
      Reachable key secret s → Reachable key secret (revoke s pid).1
  | getOfflineTokenId (s : VaultState) (sid : Nat) :
      Reachable key secret s → Reachable key secret (getOfflineTokenId s sid).1
  | handleConsentCallback (s : VaultState) (code : Nat) (token : List Nat)
      (now : Nat) (exchange : Nat → Option (List Nat)) :
      Reachable key secret s →
      Reachable key secret (handleConsentCallback key secret s code token now exchange).1
  | mintAccessToken (s : VaultState) (pid : Nat) (resp : ProviderResult) :
      Reachable key secret s → Reachable key secret (mintAccessToken key s pid resp).1

/-- Number of references to a StoredToken: a refresh token references
itself (its id doubles as the persistent id), offline tokens are
referenced through their aliases. -/
def refCount (s : VaultState) (t : StoredToken) : Nat :=
  (if t.kind = TokenKind.refresh then 1 else 0) + (aliasesOf s t.id).length

/-! ## Consent feedback page

Translated from `src/frontend/src/app/consent-feedback/page.tsx`
(`ConsentContent`): the page reads the `error` and `description` query
parameters with `useSearchParams().get` and decides
`isSuccess = !error && !description` with JavaScript truthiness, where
both `null` (parameter absent) and the empty string are falsy. -/

/-- `searchParams.get(k)`: the value of the first query parameter named
`k`, or `none` when the parameter is absent. -/
def getParam (qs : List (String × String)) (k : String) : Option String :=
  (qs.find? (fun p => p.1 == k)).map (fun p => p.2)

/-- JavaScript truthiness of `string | null`: `null` and `""` are falsy. -/
def jsTruthy : Option String → Bool
  | none => false
  | some v => !(v == "")

/-- The `isSuccess` constant of `ConsentContent`:
`!error && !description`. -/
def isSuccess (qs : List (String × String)) : Bool :=
  !(jsTruthy (getParam qs "error")) && !(jsTruthy (getParam qs "description"))

/-- The `getTitle` helper of `ConsentContent`. -/
def getTitle (qs : List (String × String)) : String :=
  if isSuccess qs then "Consent Granted Successfully" else "Consent Error"

/-! ## Optimistic rotation model

Modelled from the spec, sections 4.3 and 5: mutating Vault Store calls
use an optimistic version check keyed by the stored token id.  A
`mintAccessToken` that rotates is a read step (record the row version)
followed by a compare-and-swap write step (install the new ciphertext
and bump the version only if the version is unchanged; otherwise fail).
Two concurrent rotations of the same row are an interleaving of the two
clients' steps. -/

/-- The row of the stored token: version column and ciphertext. -/
structure RotRow where
  version : Nat
  ciphertext : Nat
deriving DecidableEq, Repr

/-- One rotating client: the version it read (if it has read), whether
it finished, and whether its compare-and-swap succeeded. -/
structure RotClient where
  seen : Option Nat
  done : Bool
  succeeded : Bool
deriving DecidableEq, Repr

/-- A client that has not run yet. -/
def RotClient.initial : RotClient := ⟨none, false, false⟩

/-- System state: the shared row and the two clients. -/
structure RotSys where
  row : RotRow
  a : RotClient
  b : RotClient
deriving DecidableEq, Repr

/-- One step of a client: read the version, or compare-and-swap write.
A finished client does nothing. -/
def rotStep (newCt : Nat) (row : RotRow) (c : RotClient) : RotRow × RotClient :=
  match c.seen, c.done with
  | _, true => (row, c)
  | none, false => (row, { c with seen := some row.version })
  | some v, false =>
    if row.version = v then
      ({ version := v + 1, ciphertext := newCt },
       { c with done := true, succeeded := true })
    else (row, { c with done := true, succeeded := false })

/-- Run a schedule: `true` steps client A (rotating to `ctA`), `false`
steps client B (rotating to `ctB`). -/
def rotRun (ctA ctB : Nat) : List Bool → RotSys → RotSys
  | [], sys => sys
  | isA :: rest, sys =>
    if isA then
      let s2 := rotStep ctA sys.row sys.a
      rotRun ctA ctB rest { sys with row := s2.1, a := s2.2 }
    else
      let s2 := rotStep ctB sys.row sys.b
      rotRun ctA ctB rest { sys with row := s2.1, b := s2.2 }

/-- Initial system: row at version `v0` with ciphertext `ct0`, neither
client has run. -/
def rotInit (v0 ct0 : Nat) : RotSys := ⟨⟨v0, ct0⟩, .initial, .initial⟩

/-- Final state of two interleaved rotations under a schedule. -/
def rotFinal (v0 ct0 ctA ctB : Nat) (sched : List Bool) : RotSys :=
  rotRun ctA ctB sched (rotInit v0 ct0)

/-- Concrete offline token used to exercise the revocation theorems. -/
def sampleToken : StoredToken :=
  { id := 0, kind := .offline, ciphertext := encryptBlob 5 0 [42],
    sessionStateId := 100, userId := 200, status := .active }

/-- Concrete store: one offline token shared by three aliases. -/
def sampleVault : VaultState :=
  { tokens := [sampleToken], aliases := [⟨1, 0⟩, ⟨2, 0⟩, ⟨3, 0⟩],
    nextId := 4, upstreamRevoked := [] }

/-- Concrete store holding one freshly put refresh token. -/
def sampleRefreshVault : VaultState :=
  (put 0 TokenKind.refresh 1 2 [3] VaultState.initial).1

/-- The refresh token stored in `sampleRefreshVault`. -/
def sampleRefreshToken : StoredToken :=
  { id := 0, kind := .refresh, ciphertext := encryptBlob 0 0 [3],
    sessionStateId := 1, userId := 2, status := .active }

/-! ## Theorems -/

/-! Basic facts about the envelope. -/

theorem length_xorWith (f : Nat → Nat) (i : Nat) (l : List Nat) :
    (xorWith f i l).length = l.length := by
  induction l generalizing i with
  | nil => rfl
  | cons b bs ih => simp [xorWith, ih]

theorem getD_xorWith (f : Nat → Nat) (i j : Nat) (l : List Nat) (h : j < l.length) :
    (xorWith f i l).getD j 0 = l.getD j 0 ^^^ f (i + j) := by
  induction l generalizing i j with
  | nil => simp at h
  | cons b bs ih =>
    cases j with
    | zero => simp [xorWith]
    | succ j =>
      simp only [xorWith, List.getD_cons_succ]
      rw [ih (i + 1) j (by simpa using h)]
      ring_nf

theorem xorWith_xorWith (f : Nat → Nat) (i : Nat) (l : List Nat) :
    xorWith f i (xorWith f i l) = l := by
  induction l generalizing i with
  | nil => rfl
  | cons b bs ih => simp [xorWith, Nat.xor_cancel_right, ih]

/-- Round trip: decrypting an encrypted blob under the same key recovers
the plaintext exactly. -/
theorem decryptBlob_encryptBlob (key iv : Nat) (pt : List Nat) :
    decryptBlob key (encryptBlob key iv pt) = some pt := by
  have hb : (xorWith (keystream key (iv % 256)) 0 pt).length = pt.length :=
    length_xorWith _ _ _
  have ht : (xorWith (tagstream key (iv % 256)) 0
      (xorWith (keystream key (iv % 256)) 0 pt)).length = pt.length := by
    rw [length_xorWith, hb]
  have hrest : ((xorWith (keystream key (iv % 256)) 0 pt) ++
      xorWith (tagstream key (iv % 256)) 0
        (xorWith (keystream key (iv % 256)) 0 pt)).length = 2 * pt.length := by
    simp [hb, ht]; omega
  have hn : ((xorWith (keystream key (iv % 256)) 0 pt) ++
      xorWith (tagstream key (iv % 256)) 0
        (xorWith (keystream key (iv % 256)) 0 pt)).length / 2 = pt.length := by
    omega
  have h2 : 2 * pt.length / 2 = pt.length := by omega
  have htake : ((xorWith (keystream key (iv % 256)) 0 pt) ++
      xorWith (tagstream key (iv % 256)) 0
        (xorWith (keystream key (iv % 256)) 0 pt)).take pt.length =
      xorWith (keystream key (iv % 256)) 0 pt := by
    conv_lhs => rw [← hb]
    exact List.take_left _ _
  simp only [encryptBlob, decryptBlob, hrest, h2]
  rw [if_pos]
  · rw [htake, xorWith_xorWith]
  · refine ⟨by omega, Nat.mod_lt _ (by norm_num), by trivial, ?_⟩
    intro i hi
    rw [List.getD_append_right _ _ _ _ (by omega),
        List.getD_append _ _ _ _ (by omega), hb, Nat.add_sub_cancel_left,
        getD_xorWith _ _ _ _ (by rwa [hb]), Nat.zero_add]

theorem encryptBlob_eq (key iv : Nat) (pt : List Nat) :
    encryptBlob key iv pt =
      (iv % 256) :: lengthTag key (iv % 256) pt.length :: restOf key iv pt := rfl

theorem length_restOf (key iv : Nat) (pt : List Nat) :
    (restOf key iv pt).length = 2 * pt.length := by
  simp [restOf, length_xorWith]; omega

theorem tagsOk_restOf (key iv : Nat) (pt : List Nat) :
    tagsOk key (iv % 256) pt.length (restOf key iv pt) := by
  intro i hi
  have hb : (xorWith (keystream key (iv % 256)) 0 pt).length = pt.length :=
    length_xorWith _ _ _
  rw [restOf, List.getD_append_right _ _ _ _ (by omega),
      List.getD_append _ _ _ _ (by omega), hb, Nat.add_sub_cancel_left,
      getD_xorWith _ _ _ _ (by rwa [hb]), Nat.zero_add]

theorem getD_set_same (l : List Nat) (a v : Nat) (h : a < l.length) :
    (l.set a v).getD a 0 = v := by
  rw [List.getD_eq_getElem _ _ (by simpa using h), List.getElem_set, if_pos rfl]

theorem getD_set_other (l : List Nat) (a b v : Nat) (hab : a ≠ b) :
    (l.set a v).getD b 0 = l.getD b 0 := by
  by_cases hb : b < l.length
  · rw [List.getD_eq_getElem _ _ (by simpa using hb), List.getElem_set, if_neg hab,
        List.getD_eq_getElem _ _ hb]
  · rw [List.getD_eq_default _ _ (by simp; omega), List.getD_eq_default _ _ (by omega)]

/-- Modifying the tag for two distinct byte values below 256 gives two
distinct length tags. -/
theorem lengthTag_inj (key n : Nat) {a b : Nat} (ha : a < 256) (hb : b < 256)
    (h : lengthTag key a n = lengthTag key b n) : a = b := by
  simp only [lengthTag] at h
  omega

/-- Tamper detection: replacing any single byte of an encrypted blob by
a different value makes decryption fail (no partial plaintext). -/
theorem decryptBlob_tamper (key iv : Nat) (pt : List Nat) (j v : Nat)
    (hj : j < (encryptBlob key iv pt).length)
    (hv : v ≠ (encryptBlob key iv pt).getD j 0) :
    decryptBlob key ((encryptBlob key iv pt).set j v) = none := by
  rw [encryptBlob_eq] at hj hv ⊢
  have hlen : (restOf key iv pt).length = 2 * pt.length := length_restOf key iv pt
  match j with
  | 0 =>
    simp only [List.getD_cons_zero] at hv
    simp only [List.set_cons_zero, decryptBlob]
    rw [if_neg]
    rintro ⟨-, h256, hlt, -⟩
    have hn : (restOf key iv pt).length / 2 = pt.length := by omega
    rw [hn] at hlt
    exact hv (lengthTag_inj key pt.length h256 (Nat.mod_lt _ (by norm_num)) hlt.symm)
  | 1 =>
    simp only [List.getD_cons_succ, List.getD_cons_zero] at hv
    simp only [List.set_cons_succ, List.set_cons_zero, decryptBlob]
    rw [if_neg]
    rintro ⟨-, -, hlt, -⟩
    have hn : (restOf key iv pt).length / 2 = pt.length := by omega
    rw [hn] at hlt
    exact hv hlt
  | Nat.succ (Nat.succ i) =>
    simp only [List.length_cons] at hj
    have hi2 : i < 2 * pt.length := by omega
    have hm : 0 < pt.length := by omega
    simp only [List.getD_cons_succ] at hv
    simp only [List.set_cons_succ, decryptBlob]
    rw [if_neg]
    rintro ⟨-, -, -, htags⟩
    have hn : ((restOf key iv pt).set i v).length / 2 = pt.length := by
      rw [List.length_set]; omega
    rw [hn] at htags
    have horig := tagsOk_restOf key iv pt
    by_cases hlo : i < pt.length
    · have h4 := htags i hlo
      rw [getD_set_other _ _ _ _ (by omega),
          getD_set_same _ _ _ (by omega), horig i hlo] at h4
      exact hv (Nat.xor_left_injective h4).symm
    · have hup : i - pt.length < pt.length := by omega
      have h4 := htags (i - pt.length) hup
      have hix : pt.length + (i - pt.length) = i := by omega
      rw [hix, getD_set_same _ _ _ (by omega),
          getD_set_other _ _ _ _ (by omega), ← horig (i - pt.length) hup, hix] at h4
      exact hv h4

/-- Verification of a freshly issued token only depends on the clock:
before or at `issuedAt + ttl` it returns the consent state unchanged,
strictly after it fails with `ExpiredStateToken`. -/
theorem verifyStateToken_issueStateToken (secret : Nat) (cs : ConsentState)
    (ttl now : Nat) :
    verifyStateToken secret (issueStateToken secret cs ttl) now =
      if now ≤ cs.issuedAt + ttl then .ok cs else .error .expiredStateToken := by
  obtain ⟨u, sid, non, ia, rc⟩ := cs
  simp only [verifyStateToken, issueStateToken, decryptBlob_encryptBlob, statePayload]

/-! Helper lemmas about lookups and alias bookkeeping. -/

theorem find?_key_unique {α β : Type} [DecidableEq β] (f : α → β) (l : List α)
    (a : α) (ha : a ∈ l) (hnd : (l.map f).Nodup) :
    l.find? (fun b => f b == f a) = some a := by
  induction l with
  | nil => cases ha
  | cons x xs ih =>
    simp only [List.map_cons, List.nodup_cons] at hnd
    rcases List.mem_cons.mp ha with rfl | hmem
    · exact List.find?_cons_of_pos _ (by simp)
    · have hne : f x ≠ f a := by
        intro h
        exact hnd.1 (h ▸ List.mem_map_of_mem f hmem)
      rw [List.find?_cons_of_neg _ (by simpa using hne), ih hmem hnd.2]

theorem findAlias_of_mem (s : VaultState) (a : TokenAlias)
    (ha : a ∈ s.aliases) (hnd : (s.aliases.map TokenAlias.aliasId).Nodup) :
    findAlias s a.aliasId = some a :=
  find?_key_unique TokenAlias.aliasId s.aliases a ha hnd

theorem aliasesOf_filter (s : VaultState) (p : TokenAlias → Bool) (tid : Nat) :
    aliasesOf { s with aliases := s.aliases.filter p } tid =
      (aliasesOf s tid).filter p := by
  simp only [aliasesOf, List.filter_filter]
  exact List.filter_congr (fun x _ => Bool.and_comm _ _)

theorem filter_ne_key_length (l : List TokenAlias) (a : TokenAlias)
    (ha : a ∈ l) (hnd : (l.map TokenAlias.aliasId).Nodup) :
    (l.filter (fun b => b.aliasId != a.aliasId)).length = l.length - 1 := by
  induction l with
  | nil => cases ha
  | cons x xs ih =>
    simp only [List.map_cons, List.nodup_cons] at hnd
    rcases List.mem_cons.mp ha with rfl | hmem
    · have hall : xs.filter (fun b => b.aliasId != a.aliasId) = xs := by
        rw [List.filter_eq_self]
        intro b hb
        simp only [bne_iff_ne, ne_eq]
        intro h
        exact hnd.1 (h ▸ List.mem_map_of_mem _ hb)
      simp [List.filter_cons, hall]
    · have hxa : x.aliasId ≠ a.aliasId := by
        intro h
        exact hnd.1 (h ▸ List.mem_map_of_mem _ hmem)
      have hlen : 1 ≤ xs.length := List.length_pos.mpr (by rintro rfl; cases hmem)
      simp only [List.filter_cons, bne_iff_ne, ne_eq, hxa, not_false_eq_true,
        if_true, List.length_cons, ih hmem hnd.2, decide_eq_true_eq]
      omega

theorem aliasIds_filter_ne (l : List TokenAlias) (p : Nat) :
    ((l.filter (fun b => b.aliasId != p)).map TokenAlias.aliasId) =
      (l.map TokenAlias.aliasId).filter (fun x => x != p) := by
  induction l with
  | nil => rfl
  | cons x xs ih =>
    by_cases h : x.aliasId = p
    · simp [List.filter_cons, h, ih]
    · simp [List.filter_cons, h, ih]

theorem find?_id_map (l : List StoredToken) (tid : Nat) (t : StoredToken)
    (f : StoredToken → StoredToken) (hpres : ∀ x, (f x).id = x.id)
    (h : l.find? (fun x => x.id == tid) = some t) :
    (l.map f).find? (fun x => x.id == tid) = some (f t) := by
  induction l with
  | nil => simp at h
  | cons x xs ih =>
    by_cases hx : x.id = tid
    · rw [List.find?_cons_of_pos _ (by simpa using hx)] at h
      cases h
      exact List.find?_cons_of_pos _ (by simp [hpres, hx])
    · rw [List.find?_cons_of_neg _ (by simpa using hx)] at h
      rw [List.map_cons, List.find?_cons_of_neg _ (by simp [hpres, hx]), ih h]

theorem findToken_markRevoked (s : VaultState) (tid : Nat) (t : StoredToken)
    (h : findToken s tid = some t) :
    findToken (markRevoked s tid) tid = some { t with status := .revoked } := by
  have hid : t.id = tid := by simpa using List.find?_some h
  have := find?_id_map s.tokens tid t
    (fun x => if x.id = tid then { x with status := TokenStatus.revoked } else x)
    (fun x => by dsimp only; split <;> rfl) h
  simpa [findToken, markRevoked, hid] using this

theorem findToken_rotate (key : Nat) (s : VaultState) (tid : Nat) (t : StoredToken)
    (newPt : List Nat) (h : findToken s tid = some t) :
    findToken (rotate key s tid newPt).1 tid =
      some { t with ciphertext := encryptBlob key s.nextId newPt } := by
  have hid : t.id = tid := by simpa using List.find?_some h
  have hmap := find?_id_map s.tokens tid t
    (fun x => if x.id = tid then { x with ciphertext := encryptBlob key s.nextId newPt } else x)
    (fun x => by dsimp only; split <;> rfl) h
  simp only [rotate, findToken] at h ⊢
  rw [h]
  simpa [hid] using hmap

/-- One `revoke` on an alias of a token that still has at least one
other alias: answers `{revoked: false}`, removes just that alias, and
leaves tokens and the upstream ledger untouched. -/
theorem revoke_alias_shared (s : VaultState) (t : StoredToken) (a : TokenAlias)
    (hnd : (s.aliases.map TokenAlias.aliasId).Nodup)
    (ha : a ∈ s.aliases) (hat : a.storedTokenId = t.id)
    (hmore : 2 ≤ (aliasesOf s t.id).length) :
    revoke s a.aliasId =
      ({ s with aliases := s.aliases.filter (fun b => b.aliasId != a.aliasId) },
       some false) := by
  have hfa := findAlias_of_mem s a ha hnd
  have hmemOf : a ∈ aliasesOf s t.id :=
    List.mem_filter.mpr ⟨ha, by simp [hat]⟩
  have hndOf : ((aliasesOf s t.id).map TokenAlias.aliasId).Nodup :=
    List.Nodup.sublist ((List.filter_sublist _).map _) hnd
  have hlen : ((aliasesOf s t.id).filter (fun b => b.aliasId != a.aliasId)).length
      = (aliasesOf s t.id).length - 1 :=
    filter_ne_key_length _ a hmemOf hndOf
  have hrem : (aliasesOf { s with aliases := s.aliases.filter (fun b => b.aliasId != a.aliasId) } a.storedTokenId).length
      = (aliasesOf s t.id).length - 1 := by
    rw [hat, aliasesOf_filter, hlen]
  simp only [revoke, removeAlias, hfa]
  rw [hrem]
  obtain ⟨m, hm⟩ : ∃ m, (aliasesOf s t.id).length - 1 = m + 1 :=
    ⟨(aliasesOf s t.id).length - 2, by omega⟩
  rw [hm]

/-- One `revoke` on the last alias of a token: answers `{revoked: true}`,
revokes upstream exactly once and marks the record revoked. -/
theorem revoke_alias_last (s : VaultState) (t : StoredToken) (a : TokenAlias)
    (hnd : (s.aliases.map TokenAlias.aliasId).Nodup)
    (ha : a ∈ s.aliases) (hat : a.storedTokenId = t.id)
    (hone : aliasesOf s t.id = [a]) :
    revoke s a.aliasId =
      (markRevoked (revokeUpstream { s with aliases := s.aliases.filter (fun b => b.aliasId != a.aliasId) } t.id) t.id,
       some true) := by
  have hfa := findAlias_of_mem s a ha hnd
  have hrem : (aliasesOf { s with aliases := s.aliases.filter (fun b => b.aliasId != a.aliasId) } a.storedTokenId).length
      = 0 := by
    rw [hat, aliasesOf_filter, hone]
    simp
  simp only [revoke, removeAlias, hfa]
  rw [hrem, hat]

/-- C1: for an offline StoredToken with N aliases (N ≥ 1), revoking the
aliases one at a time (in any order) answers `{revoked: false}` for the
first N−1 removals and `{revoked: true}` only on the Nth; the upstream
identity-provider revocation ledger gains exactly one entry, and it
gains it only at the Nth removal; after every `{revoked: false}` removal
the underlying StoredToken is still stored unchanged (hence still
active). -/
theorem offline_revoke_last_alias_only (s : VaultState) (t : StoredToken)
    (pids : List Nat)
    (hnd : (s.aliases.map TokenAlias.aliasId).Nodup)
    (ht : findToken s t.id = some t)
    (hkind : t.kind = TokenKind.offline)
    (hstat : t.status = TokenStatus.active)
    (hperm : pids.Perm ((aliasesOf s t.id).map TokenAlias.aliasId))
    (hne : pids ≠ []) :
    (revokeSeq s pids).2 =
        List.replicate (pids.length - 1) (some false) ++ [some true]
    ∧ (revokeSeq s pids).1.upstreamRevoked = t.id :: s.upstreamRevoked
    ∧ findToken (revokeSeq s pids).1 t.id =
        some { t with status := TokenStatus.revoked }
    ∧ ∀ k < pids.length,
        (revokeSeq s (pids.take k)).1.upstreamRevoked = s.upstreamRevoked
        ∧ findToken (revokeSeq s (pids.take k)).1 t.id = some t := by
  induction pids generalizing s with
  | nil => exact absurd rfl hne
  | cons p ps ih =>
    have hpL : p ∈ (aliasesOf s t.id).map TokenAlias.aliasId :=
      hperm.subset (List.mem_cons_self _ _)
    obtain ⟨a, haof, hap⟩ := List.mem_map.mp hpL
    subst hap
    have hamem : a ∈ s.aliases := (List.mem_filter.mp haof).1
    have hat : a.storedTokenId = t.id := by
      have h2 := (List.mem_filter.mp haof).2
      simpa using h2
    have hndOf : ((aliasesOf s t.id).map TokenAlias.aliasId).Nodup :=
      List.Nodup.sublist ((List.filter_sublist _).map _) hnd
    by_cases hps : ps = []
    · subst hps
      have hlen1 : (aliasesOf s t.id).length = 1 := by
        have hL := hperm.length_eq
        simpa using hL.symm
      obtain ⟨b, hb⟩ := List.length_eq_one.mp hlen1
      have hab : a = b := by
        rw [hb] at haof
        simpa using haof
      subst hab
      have hrv := revoke_alias_last s t a hnd hamem hat hb
      refine ⟨?_, ?_, ?_, ?_⟩
      · simp [revokeSeq, hrv]
      · simp [revokeSeq, hrv, markRevoked, revokeUpstream]
      · simp only [revokeSeq, hrv]
        exact findToken_markRevoked _ t.id t ht
      · intro k hk
        have hk0 : k = 0 := by
          simp only [List.length_cons, List.length_nil] at hk
          omega
        subst hk0
        exact ⟨rfl, ht⟩
    · have hlenps : 1 ≤ ps.length :=
        List.length_pos.mpr hps
      have hlen : (aliasesOf s t.id).length = ps.length + 1 := by
        have hL := hperm.length_eq
        simp only [List.length_cons, List.length_map] at hL
        omega
      have hmore : 2 ≤ (aliasesOf s t.id).length := by omega
      have hrv := revoke_alias_shared s t a hnd hamem hat hmore
      set s1 : VaultState :=
        { s with aliases := s.aliases.filter (fun b => b.aliasId != a.aliasId) }
        with hs1
      have hnd1 : (s1.aliases.map TokenAlias.aliasId).Nodup :=
        List.Nodup.sublist ((List.filter_sublist _).map _) hnd
      have ht1 : findToken s1 t.id = some t := ht
      have hperm1 : ps.Perm ((aliasesOf s1 t.id).map TokenAlias.aliasId) := by
        have hrest : ps.Perm
            (((aliasesOf s t.id).map TokenAlias.aliasId).erase a.aliasId) :=
          (List.cons_perm_iff_perm_erase.mp hperm).2
        have heq : (aliasesOf s1 t.id).map TokenAlias.aliasId
            = ((aliasesOf s t.id).map TokenAlias.aliasId).erase a.aliasId := by
          rw [hs1, aliasesOf_filter, aliasIds_filter_ne,
              List.Nodup.erase_eq_filter hndOf]
        rw [heq]
        exact hrest
      obtain ⟨h1, h2, h3, h4⟩ := ih s1 hnd1 ht1 hperm1 hps
      refine ⟨?_, ?_, ?_, ?_⟩
      · simp only [revokeSeq, hrv, h1, List.length_cons, Nat.add_sub_cancel]
        have hq : ps.length - 1 + 1 = ps.length := by omega
        rw [← hq, List.replicate_succ, List.cons_append, hq]
      · simp only [revokeSeq, hrv]
        exact h2
      · simp only [revokeSeq, hrv]
        exact h3
      · intro k hk
        match k with
        | 0 => exact ⟨rfl, ht⟩
        | Nat.succ k =>
          have hk2 : k < ps.length := by
            simp only [List.length_cons] at hk
            omega
          simp only [List.take_succ_cons, revokeSeq, hrv]
          exact h4 k hk2

/-- Membership and id of a successful `findToken` lookup. -/
theorem findToken_mem (s : VaultState) (tid : Nat) (t : StoredToken)
    (h : findToken s tid = some t) : t ∈ s.tokens ∧ t.id = tid :=
  ⟨List.mem_of_find?_eq_some h, by simpa using List.find?_some h⟩

theorem WF_initial : WF VaultState.initial := by
  refine ⟨by simp [VaultState.initial], by simp [VaultState.initial], ?_, ?_, ?_⟩ <;>
    simp [VaultState.initial]

theorem WF_put (key : Nat) (kind : TokenKind) (sid uid : Nat) (pt : List Nat)
    (s : VaultState) (h : WF s) : WF (put key kind sid uid pt s).1 := by
  obtain ⟨h1, h2, h3, h4, h5⟩ := h
  refine ⟨?_, h2, ?_, ?_, ?_⟩
  · simp only [put, List.map_cons, List.nodup_cons]
    refine ⟨?_, h1⟩
    intro hmem
    obtain ⟨t, htm, hteq⟩ := List.mem_map.mp hmem
    exact absurd hteq (Nat.ne_of_lt (h3 t htm))
  · intro t ht
    rcases List.mem_cons.mp ht with rfl | htm
    · exact Nat.lt_succ_self _
    · exact Nat.lt_succ_of_lt (h3 t htm)
  · intro a ha
    exact Nat.lt_succ_of_lt (h4 a ha)
  · intro a ha
    obtain ⟨t, htm, hid, hk⟩ := h5 a ha
    exact ⟨t, List.mem_cons_of_mem _ htm, hid, hk⟩

theorem WF_createAlias (s : VaultState) (tid : Nat) (h : WF s) :
    WF (createAlias s tid).1 := by
  obtain ⟨h1, h2, h3, h4, h5⟩ := h
  unfold createAlias
  split
  next t hft =>
    split
    next hk =>
      obtain ⟨htm, hid⟩ := findToken_mem s tid t hft
      refine ⟨h1, ?_, ?_, ?_, ?_⟩
      · simp only [List.map_cons, List.nodup_cons]
        refine ⟨?_, h2⟩
        intro hmem
        obtain ⟨a, ham, haeq⟩ := List.mem_map.mp hmem
        exact absurd haeq (Nat.ne_of_lt (h4 a ham))
      · intro t2 ht2
        exact Nat.lt_succ_of_lt (h3 t2 ht2)
      · intro a ha
        rcases List.mem_cons.mp ha with rfl | ham
        · exact Nat.lt_succ_self _
        · exact Nat.lt_succ_of_lt (h4 a ham)
      · intro a ha
        rcases List.mem_cons.mp ha with rfl | ham
        · exact ⟨t, htm, hid, hk⟩
        · exact h5 a ham
    next hk => exact ⟨h1, h2, h3, h4, h5⟩
  next hft => exact ⟨h1, h2, h3, h4, h5⟩

theorem WF_removeAlias (s : VaultState) (aid : Nat) (h : WF s) :
    WF (removeAlias s aid).1 := by
  obtain ⟨h1, h2, h3, h4, h5⟩ := h
  unfold removeAlias
  cases hfa : findAlias s aid with
  | none => exact ⟨h1, h2, h3, h4, h5⟩
  | some a =>
    refine ⟨h1, List.Nodup.sublist ((List.filter_sublist _).map _) h2, h3, ?_, ?_⟩
    · intro b hb
      exact h4 b (List.mem_filter.mp hb).1
    · intro b hb
      exact h5 b (List.mem_filter.mp hb).1

theorem WF_update_tokens (s : VaultState) (f : StoredToken → StoredToken) (n : Nat)
    (hid : ∀ x, (f x).id = x.id) (hkind : ∀ x, (f x).kind = x.kind)
    (hn : s.nextId ≤ n) (h : WF s) :
    WF { s with tokens := s.tokens.map f, nextId := n } := by
  obtain ⟨h1, h2, h3, h4, h5⟩ := h
  refine ⟨?_, h2, ?_, ?_, ?_⟩
  · have : (s.tokens.map f).map StoredToken.id = s.tokens.map StoredToken.id := by
      rw [List.map_map]
      exact List.map_congr_left (fun x _ => hid x)
    simpa [this] using h1
  · intro t ht
    obtain ⟨x, hx, rfl⟩ := List.mem_map.mp ht
    calc (f x).id = x.id := hid x
    _ < s.nextId := h3 x hx
    _ ≤ n := hn
  · intro a ha
    exact lt_of_lt_of_le (h4 a ha) hn
  · intro a ha
    obtain ⟨t, htm, hidt, hk⟩ := h5 a ha
    exact ⟨f t, List.mem_map_of_mem f htm, by rw [hid, hidt], by rw [hkind, hk]⟩

theorem WF_markRevoked (s : VaultState) (tid : Nat) (h : WF s) :
    WF (markRevoked s tid) :=
  WF_update_tokens s _ s.nextId
    (fun x => by by_cases hx : x.id = tid <;> simp [hx])
    (fun x => by by_cases hx : x.id = tid <;> simp [hx])
    le_rfl h

theorem WF_revokeUpstream (s : VaultState) (tid : Nat) (h : WF s) :
    WF (revokeUpstream s tid) := h

theorem WF_rotate (key : Nat) (s : VaultState) (tid : Nat) (pt : List Nat)
    (h : WF s) : WF (rotate key s tid pt).1 := by
  unfold rotate
  split
  next t hft =>
    exact WF_update_tokens s _ (s.nextId + 1)
      (fun x => by by_cases hx : x.id = tid <;> simp [hx])
      (fun x => by by_cases hx : x.id = tid <;> simp [hx])
      (Nat.le_succ _) h
  next hft => exact h

theorem WF_revoke (s : VaultState) (pid : Nat) (h : WF s) :
    WF (revoke s pid).1 := by
  unfold revoke
  cases hfa : findAlias s pid with
  | some a =>
    have h1 : WF (removeAlias s pid).1 := WF_removeAlias s pid h
    rcases hra : removeAlias s pid with ⟨s1, r⟩
    rw [hra] at h1
    match r with
    | none => exact h1
    | some 0 => exact WF_markRevoked _ _ (WF_revokeUpstream _ _ h1)
    | some (k + 1) => exact h1
  | none =>
    cases hft : findToken s pid with
    | none => exact h
    | some t =>
      by_cases hk : t.kind = TokenKind.refresh
      · simp only [hk, if_pos rfl]
        exact WF_markRevoked _ _ (WF_revokeUpstream _ _ h)
      · simp only [if_neg hk]
        exact h

theorem WF_getOfflineTokenId (s : VaultState) (sid : Nat) (h : WF s) :
    WF (getOfflineTokenId s sid).1 := by
  unfold getOfflineTokenId
  cases hft : s.tokens.find? (fun t => t.sessionStateId == sid
      && t.kind == TokenKind.offline && t.status == TokenStatus.active) with
  | none => exact h
  | some t => exact WF_createAlias s t.id h

theorem WF_handleConsentCallback (key secret : Nat) (s : VaultState) (code : Nat)
    (token : List Nat) (now : Nat) (exchange : Nat → Option (List Nat))
    (h : WF s) :
    WF (handleConsentCallback key secret s code token now exchange).1 := by
  unfold handleConsentCallback
  cases hv : verifyStateToken secret token now with
  | error e => cases e <;> exact h
  | ok cs =>
    cases hx : exchange code with
    | none => exact h
    | some offTok =>
      exact WF_createAlias _ _ (WF_put key .offline cs.sessionStateId cs.userId offTok s h)

theorem WF_mintAccessToken (key : Nat) (s : VaultState) (pid : Nat)
    (resp : ProviderResult) (h : WF s) :
    WF (mintAccessToken key s pid resp).1 := by
  unfold mintAccessToken
  repeat' split
  all_goals first
    | exact h
    | exact WF_markRevoked _ _ h
    | exact WF_rotate _ _ _ _ h

/-- Every reachable Vault Store state is well-formed. -/
theorem Reachable.wf {key secret : Nat} {s : VaultState}
    (h : Reachable key secret s) : WF s := by
  induction h with
  | init => exact WF_initial
  | put s kind sid uid pt _ ih => exact WF_put key kind sid uid pt s ih
  | createAlias s tid _ ih => exact WF_createAlias s tid ih
  | removeAlias s aid _ ih => exact WF_removeAlias s aid ih
  | markRevoked s tid _ ih => exact WF_markRevoked s tid ih
  | rotate s tid pt _ ih => exact WF_rotate key s tid pt ih
  | revoke s pid _ ih => exact WF_revoke s pid ih
  | getOfflineTokenId s sid _ ih => exact WF_getOfflineTokenId s sid ih
  | handleConsentCallback s code token now exchange _ ih =>
    exact WF_handleConsentCallback key secret s code token now exchange ih
  | mintAccessToken s pid resp _ ih => exact WF_mintAccessToken key s pid resp ih

/-- C5: in every reachable Vault Store state, a refresh-kind StoredToken
has exactly one reference — itself; no operation ever attaches an alias
to it. -/
theorem refresh_token_never_shared (key secret : Nat) (s : VaultState)
    (hreach : Reachable key secret s) :
    ∀ t ∈ s.tokens, t.kind = TokenKind.refresh → refCount s t = 1 := by
  obtain ⟨h1, h2, h3, h4, h5⟩ := hreach.wf
  intro t htm hk
  have hempty : aliasesOf s t.id = [] := by
    rw [List.eq_nil_iff_forall_not_mem]
    intro a ha
    have hmem : a ∈ s.aliases := (List.mem_filter.mp ha).1
    have hsid : a.storedTokenId = t.id := by
      have := (List.mem_filter.mp ha).2
      simpa using this
    obtain ⟨t2, ht2m, ht2id, ht2k⟩ := h5 a hmem
    have : t2 = t := List.inj_on_of_nodup_map h1 ht2m htm (by rw [ht2id, hsid])
    rw [this] at ht2k
    rw [hk] at ht2k
    cases ht2k
  simp [refCount, hk, hempty]

/-- C6: a consent callback bearing an expired State Token redirects to
the feedback page with the `expired_state` error code and leaves the
Vault Store untouched — no StoredToken is created. -/
theorem consent_callback_expired (key secret : Nat) (s : VaultState) (code : Nat)
    (cs : ConsentState) (ttl now : Nat) (exchange : Nat → Option (List Nat))
    (hexp : cs.issuedAt + ttl < now) :
    handleConsentCallback key secret s code (issueStateToken secret cs ttl) now exchange
      = (s, [("error", "expired_state"), ("description", "state token expired")]) := by
  have hv : verifyStateToken secret (issueStateToken secret cs ttl) now
      = .error .expiredStateToken := by
    rw [verifyStateToken_issueStateToken, if_neg (by omega)]
  unfold handleConsentCallback
  rw [hv]
  rfl

/-- C7: once `mintAccessToken` has resolved the persistent id to a
stored, decryptable record, an upstream rejection marks that record
revoked locally and fails `UpstreamTokenRejected`; a grant returns
`{accessToken, expiresIn}`, and replaces the stored ciphertext exactly
when the provider returned a rotated secret. -/
theorem mintAccessToken_outcomes (key : Nat) (s : VaultState) (pid tid : Nat)
    (t : StoredToken) (iv : Nat) (pt : List Nat)
    (hres : resolveStoredId s pid = some tid)
    (ht : findToken s tid = some t)
    (hct : t.ciphertext = encryptBlob key iv pt) :
    (mintAccessToken key s pid .rejected
        = (markRevoked s tid, .error .upstreamTokenRejected)
      ∧ findToken (mintAccessToken key s pid .rejected).1 tid
          = some { t with status := TokenStatus.revoked })
    ∧ (∀ at_ exp, mintAccessToken key s pid (.granted at_ exp none)
        = (s, .ok ⟨at_, exp⟩))
    ∧ (∀ at_ exp npt,
        (mintAccessToken key s pid (.granted at_ exp (some npt))).2 = .ok ⟨at_, exp⟩
        ∧ findToken (mintAccessToken key s pid (.granted at_ exp (some npt))).1 tid
            = some { t with ciphertext := encryptBlob key s.nextId npt }) := by
  have hdec : decryptBlob key t.ciphertext = some pt := by
    rw [hct]
    exact decryptBlob_encryptBlob key iv pt
  have hmr : mintAccessToken key s pid .rejected
      = (markRevoked s tid, .error .upstreamTokenRejected) := by
    simp only [mintAccessToken, hres, ht, hdec]
  have hgn : ∀ at_ exp, mintAccessToken key s pid (.granted at_ exp none)
      = (s, .ok ⟨at_, exp⟩) := by
    intro at_ exp
    simp only [mintAccessToken, hres, ht, hdec]
  have hgs : ∀ at_ exp npt, mintAccessToken key s pid (.granted at_ exp (some npt))
      = ((rotate key s tid npt).1, .ok ⟨at_, exp⟩) := by
    intro at_ exp npt
    simp only [mintAccessToken, hres, ht, hdec]
  refine ⟨⟨hmr, ?_⟩, hgn, fun at_ exp npt => ⟨by rw [hgs], ?_⟩⟩
  · rw [hmr]
    exact findToken_markRevoked s tid t ht
  · rw [hgs]
    exact findToken_rotate key s tid t npt ht

/-- C9: under the optimistic version check, two concurrent rotations of
the same stored token row never both report success while only one
rotation persists.  In every schedule of the four steps: if both
compare-and-swaps succeed the rotations serialized (the version advanced
twice and the surviving ciphertext is the later writer's); it is
impossible that both succeed with only one version bump; and if exactly
one client wins, exactly one rotation persists. -/
theorem concurrent_rotation_serializes (v0 ct0 ctA ctB : Nat) (sched : List Bool)
    (hlen : sched.length = 4) :
    ((rotFinal v0 ct0 ctA ctB sched).a.succeeded = true →
      (rotFinal v0 ct0 ctA ctB sched).b.succeeded = true →
      (rotFinal v0 ct0 ctA ctB sched).row.version = v0 + 2
      ∧ ((rotFinal v0 ct0 ctA ctB sched).row.ciphertext = ctA
         ∨ (rotFinal v0 ct0 ctA ctB sched).row.ciphertext = ctB))
    ∧ ¬((rotFinal v0 ct0 ctA ctB sched).a.succeeded = true
        ∧ (rotFinal v0 ct0 ctA ctB sched).b.succeeded = true
        ∧ (rotFinal v0 ct0 ctA ctB sched).row.version = v0 + 1)
    ∧ ((rotFinal v0 ct0 ctA ctB sched).a.succeeded = true →
       (rotFinal v0 ct0 ctA ctB sched).b.done = true →
       (rotFinal v0 ct0 ctA ctB sched).b.succeeded = false →
       (rotFinal v0 ct0 ctA ctB sched).row.version = v0 + 1
       ∧ (rotFinal v0 ct0 ctA ctB sched).row.ciphertext = ctA) := by
  rcases sched with - | ⟨b1, sched⟩
  · simp at hlen
  rcases sched with - | ⟨b2, sched⟩
  · simp at hlen
  rcases sched with - | ⟨b3, sched⟩
  · simp at hlen
  rcases sched with - | ⟨b4, sched⟩
  · simp at hlen
  rcases sched with - | ⟨b5, sched⟩
  · cases b1 <;> cases b2 <;> cases b3 <;> cases b4 <;>
      simp [rotFinal, rotRun, rotStep, rotInit, RotClient.initial]
  · simp at hlen

/-- C10: the success decision of the consent-feedback page depends only
on the `error` and `description` parameters (through their JavaScript
truthiness); a parameter present with an empty value behaves like an
absent one and the page reports success; a nonempty `description` alone
makes the page report failure; and prepending any other parameter (such
as `status=success`) never changes the decision. -/
theorem consent_feedback_decision (qs qs2 : List (String × String)) (d : String) :
    (getParam qs "error" = getParam qs2 "error" →
      getParam qs "description" = getParam qs2 "description" →
      isSuccess qs = isSuccess qs2)
    ∧ jsTruthy (some "") = jsTruthy none
    ∧ isSuccess [("error", "")] = true
    ∧ (getParam qs "error" = none → getParam qs "description" = some d →
        d ≠ "" → isSuccess qs = false)
    ∧ (∀ k v, k ≠ "error" → k ≠ "description" →
        isSuccess ((k, v) :: qs) = isSuccess qs)
    ∧ isSuccess [("status", "success")] = true := by
  refine ⟨?_, rfl, by decide, ?_, ?_, by decide⟩
  · intro he hd
    simp [isSuccess, he, hd]
  · intro he hd hne
    simp [isSuccess, jsTruthy, he, hd, hne]
  · intro k v hk1 hk2
    have g1 : getParam ((k, v) :: qs) "error" = getParam qs "error" := by
      unfold getParam
      rw [List.find?_cons_of_neg _ (by simpa using hk1)]
    have g2 : getParam ((k, v) :: qs) "description" = getParam qs "description" := by
      unfold getParam
      rw [List.find?_cons_of_neg _ (by simpa using hk2)]
    simp [isSuccess, g1, g2]

/-- C8 as written fails on the page code: with the query string
`?error=` the `error` parameter is present, yet `isSuccess` is `true`
because the empty string is falsy in JavaScript — success is not
equivalent to both parameters being absent. -/
theorem consent_feedback_success_despite_error_param :
    isSuccess [("error", "")] = true
    ∧ (getParam [("error", "")] "error").isSome = true := by
  decide

/-- C8 (amended): the Lifecycle Manager feedback redirect carries the
`error` and `description` parameters exactly on failure and neither on
success; and the consent-feedback page reports success if and only if
neither `error` nor `description` is present with a nonempty value. -/
theorem consent_feedback_redirect_contract (qs : List (String × String)) :
    (getParam (feedbackParams (.ok ())) "error" = none
      ∧ getParam (feedbackParams (.ok ())) "description" = none)
    ∧ (∀ c m, getParam (feedbackParams (.error (c, m))) "error" = some c
      ∧ getParam (feedbackParams (.error (c, m))) "description" = some m)
    ∧ (isSuccess qs = true ↔
        (¬ ∃ v, getParam qs "error" = some v ∧ v ≠ "")
        ∧ ¬ ∃ v, getParam qs "description" = some v ∧ v ≠ "") := by
  refine ⟨by decide, ?_, ?_⟩
  · intro c m
    constructor <;> simp [feedbackParams, getParam]
  · cases he : getParam qs "error" with
    | none =>
      cases hd : getParam qs "description" with
      | none => simp [isSuccess, jsTruthy, he, hd]
      | some v =>
        by_cases hv : v = "" <;> simp [isSuccess, jsTruthy, he, hd, hv]
    | some v =>
      cases hd : getParam qs "description" with
      | none =>
        by_cases hv : v = "" <;> simp [isSuccess, jsTruthy, he, hd, hv]
      | some w =>
        by_cases hv : v = "" <;> by_cases hw : w = "" <;>
          simp [isSuccess, jsTruthy, he, hd, hv, hw]

/-- C2: the Cipher round trip — decrypting the ciphertext and iv
produced by `encrypt` under the same key returns the plaintext exactly. -/
theorem cipher_roundtrip (key iv : Nat) (pt : List Nat) :
    decrypt key (encrypt key iv pt).1 (encrypt key iv pt).2 = some pt := by
  simp only [encrypt, decrypt]
  rw [encryptBlob_eq]
  simp only [List.drop_succ_cons, List.drop_zero]
  rw [← encryptBlob_eq]
  exact decryptBlob_encryptBlob key iv pt

/-- C3: a State Token issued for `s` with lifetime `ttl` verifies to `s`
unchanged at any time up to `issuedAt + ttl`, and fails with
`ExpiredStateToken` at any time strictly after. -/
theorem state_token_expiry (secret : Nat) (cs : ConsentState) (ttl now : Nat) :
    (now ≤ cs.issuedAt + ttl →
      verifyStateToken secret (issueStateToken secret cs ttl) now = .ok cs)
    ∧ (cs.issuedAt + ttl < now →
      verifyStateToken secret (issueStateToken secret cs ttl) now
        = .error .expiredStateToken) := by
  constructor <;> intro h <;> rw [verifyStateToken_issueStateToken]
  · rw [if_pos h]
  · rw [if_neg (by omega)]

theorem state_token_expiry_witness :
    verifyStateToken 1 (issueStateToken 1 ⟨1, 2, 3, 4, 5⟩ 10) 14 = .ok ⟨1, 2, 3, 4, 5⟩
    ∧ verifyStateToken 1 (issueStateToken 1 ⟨1, 2, 3, 4, 5⟩ 10) 15
      = .error .expiredStateToken :=
  ⟨(state_token_expiry 1 ⟨1, 2, 3, 4, 5⟩ 10 14).1 (by decide),
   (state_token_expiry 1 ⟨1, 2, 3, 4, 5⟩ 10 15).2 (by decide)⟩

/-- C4: modifying any single entry of a stored ciphertext blob makes
decryption fail with `DecryptionError`, and modifying any single entry
of a State Token makes verification fail with `InvalidStateToken`
regardless of the clock — never a different value, never partial
plaintext. -/
theorem tamper_always_detected :
    (∀ key iv (pt : List Nat) (j v : Nat), j < (encryptBlob key iv pt).length →
        v ≠ (encryptBlob key iv pt).getD j 0 →
        decryptBlob key ((encryptBlob key iv pt).set j v) = none)
    ∧ (∀ secret (cs : ConsentState) (ttl now j v : Nat),
        j < (issueStateToken secret cs ttl).length →
        v ≠ (issueStateToken secret cs ttl).getD j 0 →
        verifyStateToken secret ((issueStateToken secret cs ttl).set j v) now
          = .error .invalidStateToken) := by
  refine ⟨fun key iv pt j v hj hv => decryptBlob_tamper key iv pt j v hj hv, ?_⟩
  intro secret cs ttl now j v hj hv
  have hnone := decryptBlob_tamper secret cs.nonce (statePayload cs ttl) j v hj hv
  unfold verifyStateToken issueStateToken
  rw [hnone]

theorem tamper_always_detected_witness :
    decryptBlob 3 ((encryptBlob 3 7 [10, 20]).set 2 99) = none
    ∧ verifyStateToken 5 ((issueStateToken 5 ⟨1, 2, 3, 4, 5⟩ 10).set 0 9) 0
      = .error .invalidStateToken :=
  ⟨tamper_always_detected.1 3 7 [10, 20] 2 99 (by decide) (by decide),
   tamper_always_detected.2 5 ⟨1, 2, 3, 4, 5⟩ 10 0 0 9 (by decide) (by decide)⟩

theorem offline_revoke_last_alias_only_witness :
    (revokeSeq sampleVault [1, 2, 3]).2 = [some false, some false, some true]
    ∧ (revokeSeq sampleVault [1, 2, 3]).1.upstreamRevoked = [0] := by
  obtain ⟨h1, h2, h3, h4⟩ := offline_revoke_last_alias_only sampleVault sampleToken
    [1, 2, 3] (by decide) (by decide) (by decide) (by decide) (List.Perm.refl _)
    (by decide)
  exact ⟨h1.trans (by decide), h2⟩

theorem refresh_token_never_shared_witness :
    refCount sampleRefreshVault sampleRefreshToken = 1 :=
  refresh_token_never_shared 0 0 sampleRefreshVault
    (Reachable.put VaultState.initial TokenKind.refresh 1 2 [3] Reachable.init)
    sampleRefreshToken (by decide) (by decide)

theorem consent_callback_expired_witness :
    handleConsentCallback 0 1 VaultState.initial 9
        (issueStateToken 1 ⟨1, 2, 3, 4, 5⟩ 2) 7 (fun _ => none)
      = (VaultState.initial,
         [("error", "expired_state"), ("description", "state token expired")]) :=
  consent_callback_expired 0 1 VaultState.initial 9 ⟨1, 2, 3, 4, 5⟩ 2 7
    (fun _ => none) (by decide)

theorem mintAccessToken_outcomes_witness :
    mintAccessToken 0 sampleRefreshVault 0 .rejected
      = (markRevoked sampleRefreshVault 0, .error .upstreamTokenRejected)
    ∧ mintAccessToken 0 sampleRefreshVault 0 (.granted [9] 60 none)
      = (sampleRefreshVault, .ok ⟨[9], 60⟩) := by
  obtain ⟨⟨h1, -⟩, h2, -⟩ := mintAccessToken_outcomes 0 sampleRefreshVault 0 0
    sampleRefreshToken 0 [3] (by decide) (by decide) rfl
  exact ⟨h1, h2 [9] 60⟩

theorem concurrent_rotation_serializes_witness :
    (rotFinal 0 1 2 3 [true, false, true, false]).row.version = 1
    ∧ (rotFinal 0 1 2 3 [true, false, true, false]).row.ciphertext = 2 := by
  obtain ⟨-, -, h3⟩ := concurrent_rotation_serializes 0 1 2 3
    [true, false, true, false] rfl
  exact h3 (by decide) (by decide) (by decide)

theorem consent_feedback_decision_witness :
    isSuccess [("error", "x")] = isSuccess [("error", "x"), ("status", "y")]
    ∧ isSuccess [("description", "boom")] = false := by
  obtain ⟨h1, -, -, -, -, -⟩ := consent_feedback_decision [("error", "x")]
    [("error", "x"), ("status", "y")] "boom"
  obtain ⟨-, -, -, h4, -, -⟩ := consent_feedback_decision [("description", "boom")]
    [] "boom"
  exact ⟨h1 (by decide) (by decide), h4 (by decide) (by decide) (by decide)⟩

end AuthManager
